import Mathlib

/-!
Shallow embedding of the LiveTex backend server (`src/index.ts`): the
directory scanner `listPdfs`, the WebSocket broadcast helpers, the
filesystem-watch reaction, and the `/api/pdf/:name` file-serving route.

Modelling conventions:
- JavaScript strings are modelled as Lean `String`; the JS primitives
  `endsWith` and `includes` are modelled as suffix / infix tests on the
  underlying character list, which matches their ECMAScript semantics.
- `readdirSync` of the watched directory is modelled by a `DirState`
  carrying the list of entry names and a `readable` flag (`false` means
  `readdirSync` throws, e.g. the directory is missing or unreadable).
- `statSync` is modelled by a partial map `mtime : String → Option Nat`;
  `none` means `statSync` throws for that entry.  `mtimeMs` is modelled
  as a natural number of milliseconds.
- A thrown exception inside the `.map` over entries propagates to the
  scan-level `try/catch`; this is modelled by `statAll` returning `none`
  as soon as any entry's metadata is missing.
- `Array.prototype.sort` with the comparator
  `(a, b) => a.name.localeCompare(b.name)` is modelled as a stable
  comparator sort under `localeLe`, a model of the default-locale (ICU
  root) collation restricted to the ASCII names used here: strings are
  compared by their whole primary-weight sequences first (letters
  case-insensitively by base character, other characters by codepoint),
  with the case sequences (lowercase before uppercase) breaking primary
  ties — so `a.pdf` sorts before `B.pdf`, unlike codepoint order.  The
  codepoint-lexicographic order `lexLe` is kept separately only to state
  what "case-sensitive lexicographic" would mean, for comparison with the
  program's collation order.
- WebSocket clients are opaque handles, modelled as naturals; a broadcast
  is modelled by the ordered trace of send calls it performs.  Bun's
  server-side `WebSocket.send` reports failure through a status code and
  does not throw, so a send is modelled as a total operation whose
  success is given by the environment.
-/

namespace LiveTex

/-- Model of JavaScript `s.endsWith(pat)`: `pat` is a suffix of `s`. -/
def jsEndsWith (s pat : String) : Bool := decide (pat.data <:+ s.data)

/-- Model of JavaScript `s.includes(pat)`: `pat` occurs contiguously in `s`. -/
def jsIncludes (s pat : String) : Bool := decide (pat.data <:+: s.data)

/-- The scanner's filter `f => f.endsWith(".pdf")` (case-sensitive suffix). -/
def endsWithPdf (s : String) : Bool := jsEndsWith s ".pdf"

/-- Model of `path.join(dir, name)` as used to build a descriptor's `path`
field, where `name` is a plain directory entry (a single segment). -/
def joinPath (dir name : String) : String := dir ++ "/" ++ name

/-- State of the watched directory as the filesystem presents it to the
scanner: the directory name, the entries `readdirSync` would return, the
`statSync` results, and whether `readdirSync` itself succeeds. -/
structure DirState where
  dir : String
  entries : List String
  mtime : String → Option Nat
  readable : Bool

/-- One element of the scan result: `{ name, path, modified }`. -/
structure FileDescriptor where
  name : String
  path : String
  modified : Nat
deriving DecidableEq

/-- Runs `statSync` on every listed name, in order.  A single failure
(`none`) throws, so the whole traversal yields `none` — exactly the
behaviour of the `.map` callback in `listPdfs`, whose exception is only
caught by the scan-level `try/catch`. -/
def statAll (mtime : String → Option Nat) : List String → Option (List (String × Nat))
  | [] => some []
  | n :: rest =>
    match mtime n with
    | none => none
    | some m => (statAll mtime rest).map (fun ps => (n, m) :: ps)

/-- Lexicographic "less or equal" on weight sequences. -/
def natLexLe : List Nat → List Nat → Bool
  | [], _ => true
  | _ :: _, [] => false
  | a :: as, b :: bs =>
    if a < b then true
    else if b < a then false
    else natLexLe as bs

/-- Primary collation weight of one character in the default-locale (ICU
root) collation, restricted to ASCII: letters weigh as their lowercase
form (case is ignored at primary strength), everything else by
codepoint. -/
def collPrimary (c : Char) : Nat :=
  if 65 ≤ c.toNat ∧ c.toNat ≤ 90 then c.toNat + 32 else c.toNat

/-- Case (tertiary) collation weight: lowercase before uppercase in the
root locale. -/
def collCase (c : Char) : Nat :=
  if 65 ≤ c.toNat ∧ c.toNat ≤ 90 then 1 else 0

/-- The comparator `(a, b) => a.name.localeCompare(b.name)` rendered as a
boolean "less or equal" on names: a model of default-locale (ICU root)
collation on the ASCII names used here.  As ICU does, the whole primary
weight sequences are compared first, and only a full primary tie falls
through to the case weights (lowercase first) — so `a.pdf < B.pdf` and
`Ab < aC`, both unlike codepoint order. -/
def localeLe (a b : String) : Bool :=
  if a.data.map collPrimary = b.data.map collPrimary then
    natLexLe (a.data.map collCase) (b.data.map collCase)
  else
    natLexLe (a.data.map collPrimary) (b.data.map collPrimary)

/-- Model of `listPdfs()` from `src/index.ts`: list the directory, keep the
names ending in `.pdf`, stat each one into a descriptor, and sort the
descriptors by name with a stable comparator sort; any exception
(enumeration failure or a stat failure) is caught and yields the empty
list. -/
def listPdfs (d : DirState) : List FileDescriptor :=
  if d.readable then
    match statAll d.mtime (d.entries.filter (fun f => endsWithPdf f)) with
    | none => []
    | some pairs =>
      (pairs.map (fun p => FileDescriptor.mk p.1 (joinPath d.dir p.1) p.2)).insertionSort
        (fun a b => localeLe a.name b.name = true)
  else []

/-- Connected WebSocket clients are opaque handles. -/
abbrev Observer := Nat

/-- Server-to-client push messages (`pdfs-updated` / `pdf-changed`). -/
inductive WsMessage where
  | pdfsUpdated (files : List FileDescriptor) : WsMessage
  | pdfChanged (name : String) : WsMessage
deriving DecidableEq

/-- Model of `broadcastPdfs()`: sends a fresh scan to every client, as the
ordered trace of `(client, message)` send calls. -/
def broadcastPdfs (d : DirState) (clients : List Observer) : List (Observer × WsMessage) :=
  clients.map (fun c => (c, WsMessage.pdfsUpdated (listPdfs d)))

/-- Model of the `watch(PDF_DIR, (event, filename) => ...)` callback: if the
change carries a filename ending in `.pdf`, broadcast the fresh list to all
clients and then a `pdf-changed` message carrying the raw filename;
otherwise do nothing.  `filename` is `Option String` because `fs.watch` may
deliver `null` (the source guards with `filename?.endsWith(".pdf")`). -/
def watchReaction (d : DirState) (clients : List Observer) (filename : Option String) :
    List (Observer × WsMessage) :=
  match filename with
  | none => []
  | some fn =>
    if endsWithPdf fn then
      broadcastPdfs d clients ++ clients.map (fun c => (c, WsMessage.pdfChanged fn))
    else []

/-- Model of `clients.forEach(ws => ws.send(msg))` with per-client send
outcomes: Bun's server-side send reports failure via its return value and
does not throw, so each send is a total operation and the trace records
`(client, message, delivered?)` with `delivered? = !sendFails client`. -/
def broadcast (clients : List Observer) (sendFails : Observer → Bool) (msg : WsMessage) :
    List (Observer × WsMessage × Bool) :=
  clients.map (fun c => (c, msg, !sendFails c))

/-- Outcome of the `/api/pdf/:name` route. -/
inductive ServeResult where
  | invalidName : ServeResult
  | notFound : ServeResult
  | ok (contentType : String) : ServeResult
deriving DecidableEq

/-- Model of the `/api/pdf/:name` handler, applied to the percent-decoded
name: reject names failing the `.pdf`-suffix / no-`/` / no-`..` checks with
400, reject names whose file is absent with 404, otherwise serve the file
with content type `application/pdf`.  `fileExists` models
`Bun.file(join(PDF_DIR, name)).exists()`. -/
def servePdf (fileExists : String → Bool) (name : String) : ServeResult :=
  if !jsEndsWith name ".pdf" || jsIncludes name "/" || jsIncludes name ".." then
    ServeResult.invalidName
  else if !fileExists name then
    ServeResult.notFound
  else
    ServeResult.ok "application/pdf"

/-- Paths at the segment level: a path is a list of segments, each a list of
characters.  Splitting a string on `/` (the separator the route checks for
and the only one `path.join` introduces here). -/
def splitOnSlash : List Char → List (List Char)
  | [] => [[]]
  | c :: rest =>
    match splitOnSlash rest with
    | [] => [[]]
    | seg :: segs => if c = '/' then [] :: seg :: segs else (c :: seg) :: segs

/-- One step of `path.join` normalization over a segment stack: empty and
`.` segments vanish, `..` pops the last segment, anything else is kept. -/
def normStep (acc : List (List Char)) (seg : List Char) : List (List Char) :=
  if seg = [] ∨ seg = ['.'] then acc
  else if seg = ['.', '.'] then acc.dropLast
  else acc ++ [seg]

/-- Normalization of a segment sequence, as `path.join` performs on the
concatenated pieces. -/
def normalizeSegs (segs : List (List Char)) : List (List Char) := segs.foldl normStep []

/-- Model of `path.join(root, name)` at the segment level: split the request
name on `/`, append to the root's segments, and normalize. -/
def joinSegs (root : List (List Char)) (name : String) : List (List Char) :=
  normalizeSegs (root ++ splitOnSlash name.data)

/-- A segment that normalization keeps as-is: nonempty, not `.`, not `..`. -/
def isNormalSeg (seg : List Char) : Prop := seg ≠ [] ∧ seg ≠ ['.'] ∧ seg ≠ ['.', '.']

instance (seg : List Char) : Decidable (isNormalSeg seg) := by
  unfold isNormalSeg
  infer_instance

/-- A readable directory holding `a.pdf` and `b.pdf` where `statSync`
succeeds on `a.pdf` but throws on `b.pdf`. -/
def dCex : DirState :=
  DirState.mk "root" ["a.pdf", "b.pdf"] (fun n => if n = "a.pdf" then some 1 else none) true

/-- A healthy readable directory: two PDFs (listed out of name order) plus a
non-PDF entry whose metadata is unreadable (it is filtered out before any
stat, so the scan succeeds). -/
def dOk : DirState :=
  DirState.mk "root" ["b.pdf", "notes.txt", "a.pdf"]
    (fun n => if n = "a.pdf" then some 5 else if n = "b.pdf" then some 3 else none) true

/-- A readable directory that has just become empty (the watched file was
deleted before the reaction re-scans). -/
def dGone : DirState := DirState.mk "root" [] (fun _ => none) true

/-- A directory whose enumeration fails (missing or unreadable root). -/
def dNoDir : DirState := DirState.mk "root" ["a.pdf"] (fun _ => some 1) false

/-! Helper lemmas about the embedded operations. -/

theorem statAll_eq_none {mtime : String → Option Nat} :
    ∀ {l : List String}, statAll mtime l = none ↔ ∃ n ∈ l, mtime n = none := by
  intro l
  induction l with
  | nil => simp [statAll]
  | cons n rest ih =>
    simp only [statAll]
    cases h : mtime n with
    | none =>
      constructor
      · intro _
        exact ⟨n, List.mem_cons_self n rest, h⟩
      · intro _
        rfl
    | some m =>
      cases hr : statAll mtime rest with
      | none =>
        simp only [Option.map_none']
        constructor
        · intro _
          obtain ⟨x, hx, hfx⟩ := ih.mp hr
          exact ⟨x, List.mem_cons_of_mem _ hx, hfx⟩
        · intro _
          trivial
      | some qs =>
        simp only [Option.map_some']
        constructor
        · intro hcontra
          cases hcontra
        · rintro ⟨x, hx, hfx⟩
          rcases List.mem_cons.mp hx with rfl | hx'
          · rw [h] at hfx
            cases hfx
          · have h2 := ih.mpr ⟨x, hx', hfx⟩
            rw [hr] at h2
            cases h2

theorem splitOnSlash_eq_single {cs : List Char} (h : '/' ∉ cs) :
    splitOnSlash cs = [cs] := by
  induction cs with
  | nil => rfl
  | cons c rest ih =>
    have hc : ¬(c = '/') := fun hc => h (hc ▸ List.mem_cons_self c rest)
    have hrest : '/' ∉ rest := fun hr => h (List.mem_cons_of_mem c hr)
    simp [splitOnSlash, ih hrest, hc]

theorem foldl_normStep_normal :
    ∀ (segs : List (List Char)), (∀ s ∈ segs, isNormalSeg s) →
      ∀ acc, segs.foldl normStep acc = acc ++ segs := by
  intro segs
  induction segs with
  | nil =>
    intro _ acc
    simp
  | cons s rest ih =>
    intro h acc
    obtain ⟨h1, h2, h3⟩ := h s (List.mem_cons_self s rest)
    have hstep : normStep acc s = acc ++ [s] := by
      simp [normStep, h1, h2, h3]
    simp only [List.foldl_cons, hstep]
    rw [ih (fun x hx => h x (List.mem_cons_of_mem s hx)) (acc ++ [s])]
    simp

theorem count_pair_map_self (clients : List Observer) (c : Observer) (m : WsMessage) :
    (clients.map (fun x => (x, m))).count (c, m) = clients.count c := by
  induction clients with
  | nil => rfl
  | cons a rest ih =>
    simp only [List.map_cons, List.count_cons, ih]
    congr 1
    simp [Prod.ext_iff]

theorem count_pair_map_ne (clients : List Observer) (c : Observer) {m m' : WsMessage}
    (h : m ≠ m') : (clients.map (fun x => (x, m))).count (c, m') = 0 := by
  rw [List.count_eq_zero]
  intro hmem
  obtain ⟨x, _, hx⟩ := List.mem_map.mp hmem
  exact absurd (congrArg Prod.snd hx) h

/-! Claim theorems. -/

/-- C1 (counterexample): the claim says a single entry's metadata failure
leaves the other matching entries in the snapshot.  In `dCex` the stat of
`b.pdf` alone fails while `a.pdf` is a matching entry with readable
metadata, yet the scan returns the empty snapshot rather than the snapshot
containing `a.pdf`. -/
theorem listPdfs_single_stat_failure_cex :
    dCex.readable = true ∧ dCex.entries = ["a.pdf", "b.pdf"] ∧
    endsWithPdf "a.pdf" = true ∧ endsWithPdf "b.pdf" = true ∧
    dCex.mtime "a.pdf" = some 1 ∧ dCex.mtime "b.pdf" = none ∧
    listPdfs dCex = [] := by
  decide

/-- C1 (amended): if metadata retrieval fails for any matching entry of a
readable directory, the exception escapes the per-entry map and is caught
by the scan-level handler, so the whole scan returns the empty snapshot. -/
theorem listPdfs_stat_failure_empties (d : DirState) (hr : d.readable = true)
    (n : String) (hn : n ∈ d.entries) (hext : endsWithPdf n = true)
    (hfail : d.mtime n = none) : listPdfs d = [] := by
  have hnone : statAll d.mtime (d.entries.filter (fun f => endsWithPdf f)) = none :=
    statAll_eq_none.mpr ⟨n, List.mem_filter.mpr ⟨hn, hext⟩, hfail⟩
  simp [listPdfs, hr, hnone]

/-- C1 (witness for the amended claim), at the concrete directory `dCex`. -/
theorem listPdfs_stat_failure_empties_witness :
    (dCex.readable = true ∧ "b.pdf" ∈ dCex.entries ∧ endsWithPdf "b.pdf" = true ∧
      dCex.mtime "b.pdf" = none) ∧
    listPdfs dCex = [] :=
  ⟨⟨rfl, by decide, by decide, by decide⟩,
    listPdfs_stat_failure_empties dCex rfl "b.pdf" (by decide) (by decide) (by decide)⟩

/-- C3: when directory enumeration fails (missing or unreadable root), the
scan returns the empty snapshot (and, being a total function, does not
throw). -/
theorem listPdfs_unreadable_empty (d : DirState) (h : d.readable = false) :
    listPdfs d = [] := by
  simp [listPdfs, h]

/-- C3 (witness), at the concrete unreadable directory `dNoDir`. -/
theorem listPdfs_unreadable_empty_witness :
    dNoDir.readable = false ∧ listPdfs dNoDir = [] :=
  ⟨rfl, listPdfs_unreadable_empty dNoDir rfl⟩

/-- C4: for every decoded request name, the route answers 400 iff the name
fails the extension check or contains `/` or contains `..`; otherwise 404
iff the file does not exist; otherwise 200 with content type
`application/pdf`. -/
theorem servePdf_cases (fileExists : String → Bool) (name : String) :
    (servePdf fileExists name = ServeResult.invalidName ↔
      (jsEndsWith name ".pdf" = false ∨ jsIncludes name "/" = true ∨
        jsIncludes name ".." = true)) ∧
    (servePdf fileExists name = ServeResult.notFound ↔
      (jsEndsWith name ".pdf" = true ∧ jsIncludes name "/" = false ∧
        jsIncludes name ".." = false ∧ fileExists name = false)) ∧
    (servePdf fileExists name = ServeResult.ok "application/pdf" ↔
      (jsEndsWith name ".pdf" = true ∧ jsIncludes name "/" = false ∧
        jsIncludes name ".." = false ∧ fileExists name = true)) := by
  cases h1 : jsEndsWith name ".pdf" <;> cases h2 : jsIncludes name "/" <;>
    cases h3 : jsIncludes name ".." <;> cases h4 : fileExists name <;>
      simp [servePdf, h1, h2, h3, h4]

/-- C5: every decoded name the gateway does not reject as invalid resolves,
under `path.join` normalization, to exactly one fresh segment directly
below the watched root — the joined path stays inside the root. -/
theorem accepted_name_stays_in_root (fe : String → Bool) (root : List (List Char))
    (hroot : ∀ s ∈ root, isNormalSeg s) (name : String)
    (hacc : servePdf fe name ≠ ServeResult.invalidName) :
    joinSegs root name = root ++ [name.data] ∧ root <+: joinSegs root name := by
  have h1 : jsEndsWith name ".pdf" = true := by
    cases h : jsEndsWith name ".pdf"
    · exact absurd (by simp [servePdf, h]) hacc
    · rfl
  have h2 : jsIncludes name "/" = false := by
    cases h : jsIncludes name "/"
    · rfl
    · exact absurd (by simp [servePdf, h]) hacc
  have hsuf : (".pdf".data : List Char) <:+ name.data := of_decide_eq_true h1
  have hlen : 4 ≤ name.data.length := by
    have hle := hsuf.length_le
    simpa using hle
  have hnoslash : '/' ∉ name.data := by
    intro hmem
    obtain ⟨s, t, hst⟩ := List.append_of_mem hmem
    have hinf : ("/".data : List Char) <:+: name.data := ⟨s, t, by simp [hst]⟩
    exact absurd hinf (of_decide_eq_false h2)
  have hnorm : isNormalSeg name.data := by
    refine ⟨?_, ?_, ?_⟩ <;> intro he <;> rw [he] at hlen <;> simp at hlen
  have hall : ∀ s ∈ root ++ [name.data], isNormalSeg s := by
    intro s hs
    rcases List.mem_append.mp hs with hs | hs
    · exact hroot s hs
    · rw [List.mem_singleton.mp hs]
      exact hnorm
  have hj : joinSegs root name = root ++ [name.data] := by
    rw [joinSegs, splitOnSlash_eq_single hnoslash, normalizeSegs,
      foldl_normStep_normal _ hall []]
    simp
  exact ⟨hj, ⟨[name.data], hj.symm⟩⟩

/-- C5 (witness): the accepted name `report.pdf` under root `pdfs`. -/
theorem accepted_name_stays_in_root_witness :
    ((∀ s ∈ ["pdfs".data], isNormalSeg s) ∧
      servePdf (fun _ => true) "report.pdf" ≠ ServeResult.invalidName) ∧
    (joinSegs ["pdfs".data] "report.pdf" = ["pdfs".data] ++ ["report.pdf".data] ∧
      ["pdfs".data] <+: joinSegs ["pdfs".data] "report.pdf") :=
  ⟨⟨by decide, by decide⟩,
    accepted_name_stays_in_root (fun _ => true) ["pdfs".data] (by decide) "report.pdf"
      (by decide)⟩

/-- C6: on a qualifying change (filename ends in `.pdf`), every registered
observer receives exactly one `pdfs-updated` message whose payload is the
fresh scan and exactly one `pdf-changed` message carrying the filename,
and in the reaction's send trace every such `pdfs-updated` send precedes
every such `pdf-changed` send. -/
theorem watch_qualifying_broadcast_pair (d : DirState) (clients : List Observer)
    (hnd : clients.Nodup) (fn : String) (hq : endsWithPdf fn = true)
    (c : Observer) (hc : c ∈ clients) :
    (watchReaction d clients (some fn)).count (c, WsMessage.pdfsUpdated (listPdfs d)) = 1 ∧
    (watchReaction d clients (some fn)).count (c, WsMessage.pdfChanged fn) = 1 ∧
    ∀ (i j : Fin (watchReaction d clients (some fn)).length),
      (watchReaction d clients (some fn)).get i = (c, WsMessage.pdfsUpdated (listPdfs d)) →
      (watchReaction d clients (some fn)).get j = (c, WsMessage.pdfChanged fn) →
      (i : Nat) < (j : Nat) := by
  have htrace : watchReaction d clients (some fn) =
      clients.map (fun x => (x, WsMessage.pdfsUpdated (listPdfs d))) ++
        clients.map (fun x => (x, WsMessage.pdfChanged fn)) := by
    simp [watchReaction, hq, broadcastPdfs]
  rw [htrace]
  have hcc : clients.count c = 1 := List.count_eq_one_of_mem hnd hc
  refine ⟨?_, ?_, ?_⟩
  · rw [List.count_append]
    have hA : (clients.map (fun x => (x, WsMessage.pdfsUpdated (listPdfs d)))).count
        (c, WsMessage.pdfsUpdated (listPdfs d)) = 1 :=
      (count_pair_map_self clients c _).trans hcc
    have hB : (clients.map (fun x => (x, WsMessage.pdfChanged fn))).count
        (c, WsMessage.pdfsUpdated (listPdfs d)) = 0 :=
      count_pair_map_ne clients c (by simp)
    omega
  · rw [List.count_append]
    have hA : (clients.map (fun x => (x, WsMessage.pdfsUpdated (listPdfs d)))).count
        (c, WsMessage.pdfChanged fn) = 0 :=
      count_pair_map_ne clients c (by simp)
    have hB : (clients.map (fun x => (x, WsMessage.pdfChanged fn))).count
        (c, WsMessage.pdfChanged fn) = 1 :=
      (count_pair_map_self clients c _).trans hcc
    omega
  · intro i j hi hj
    have hiA : (i : Nat) < clients.length := by
      by_contra hge
      push_neg at hge
      rw [List.get_eq_getElem, List.getElem_append_right (by simpa using hge)] at hi
      rw [List.getElem_map] at hi
      simp at hi
    have hjB : ¬ (j : Nat) < clients.length := by
      intro hlt
      rw [List.get_eq_getElem, List.getElem_append_left (by simpa using hlt)] at hj
      rw [List.getElem_map] at hj
      simp at hj
    omega

/-- C6 (witness): two observers, directory `dOk`, change on `a.pdf`. -/
theorem watch_qualifying_broadcast_pair_witness :
    (([0, 1] : List Observer).Nodup ∧ endsWithPdf "a.pdf" = true ∧ (0 : Observer) ∈ [0, 1]) ∧
    ((watchReaction dOk [0, 1] (some "a.pdf")).count
        (0, WsMessage.pdfsUpdated (listPdfs dOk)) = 1 ∧
      (watchReaction dOk [0, 1] (some "a.pdf")).count (0, WsMessage.pdfChanged "a.pdf") = 1 ∧
      ∀ (i j : Fin (watchReaction dOk [0, 1] (some "a.pdf")).length),
        (watchReaction dOk [0, 1] (some "a.pdf")).get i
            = (0, WsMessage.pdfsUpdated (listPdfs dOk)) →
        (watchReaction dOk [0, 1] (some "a.pdf")).get j = (0, WsMessage.pdfChanged "a.pdf") →
        (i : Nat) < (j : Nat)) :=
  ⟨⟨by decide, by decide, by decide⟩,
    watch_qualifying_broadcast_pair dOk [0, 1] (by decide) "a.pdf" (by decide) 0 (by decide)⟩

/-- C7: a change whose filename does not end in `.pdf` produces an empty
send trace — no broadcast reaches any observer. -/
theorem watch_nonqualifying_silent (d : DirState) (clients : List Observer)
    (fn : String) (hq : endsWithPdf fn = false) :
    watchReaction d clients (some fn) = [] := by
  simp [watchReaction, hq]

/-- C7 (witness): a change on `notes.txt` is silent. -/
theorem watch_nonqualifying_silent_witness :
    endsWithPdf "notes.txt" = false ∧
    watchReaction dOk [0, 1] (some "notes.txt") = [] :=
  ⟨by decide, watch_nonqualifying_silent dOk [0, 1] "notes.txt" (by decide)⟩

/-- C8: a send failure on one observer's connection is absorbed by that
send alone — the broadcast still performs a send for every registered
observer (the trace keeps the registry's length) and every observer whose
own send works receives the message, whatever the failure pattern on the
other observers; the broadcast itself is a total operation and raises
nothing. -/
theorem broadcast_send_failure_isolated (clients : List Observer)
    (sendFails : Observer → Bool) (msg : WsMessage) (c : Observer)
    (hc : c ∈ clients) (hok : sendFails c = false) :
    (broadcast clients sendFails msg).length = clients.length ∧
    (c, msg, true) ∈ broadcast clients sendFails msg := by
  constructor
  · simp [broadcast]
  · have hmem : (c, msg, !sendFails c) ∈ broadcast clients sendFails msg :=
      List.mem_map_of_mem _ hc
    rw [hok] at hmem
    exact hmem

/-- C8 (witness): observer 0's send fails, observer 1 still receives. -/
theorem broadcast_send_failure_isolated_witness :
    ((1 : Observer) ∈ [0, 1] ∧ (fun x : Observer => decide (x = 0)) 1 = false) ∧
    ((broadcast [0, 1] (fun x => decide (x = 0)) (WsMessage.pdfChanged "a.pdf")).length
        = ([0, 1] : List Observer).length ∧
      ((1 : Observer), WsMessage.pdfChanged "a.pdf", true) ∈
        broadcast [0, 1] (fun x => decide (x = 0)) (WsMessage.pdfChanged "a.pdf")) :=
  ⟨⟨by decide, by decide⟩,
    broadcast_send_failure_isolated [0, 1] (fun x => decide (x = 0))
      (WsMessage.pdfChanged "a.pdf") 1 (by decide) (by decide)⟩

/-- C9: a change notification carrying no filename (`null`) produces no
broadcast at all, whatever the directory's actual contents. -/
theorem watch_no_filename_silent (d : DirState) (clients : List Observer) :
    watchReaction d clients none = [] := rfl

/-- C10: the `pdf-changed` payload repeats the raw notification filename
without checking the fresh snapshot: after `gone.pdf` is deleted (the
directory re-scans to empty), the observer still receives
`pdf-changed "gone.pdf"` right after a `pdfs-updated` message whose file
list does not contain that name. -/
theorem fileChanged_names_deleted_file :
    watchReaction dGone [0] (some "gone.pdf") =
      [(0, WsMessage.pdfsUpdated (listPdfs dGone)), (0, WsMessage.pdfChanged "gone.pdf")] ∧
    listPdfs dGone = [] ∧
    endsWithPdf "gone.pdf" = true := by
  decide

end LiveTex
